import Mathlib

/-!
Verification of the streaming-response accumulator, SSE reader, stream
iterator and message utilities of the `anthropic-go` client library.

The Go source is shallowly embedded: Go strings become `String`, Go `int`
becomes `Int`, Go pointers that may be nil become `Option`, the polymorphic
`Content` interface becomes an inductive type, the Go `map[int]Content`
becomes an association list with insert-or-replace semantics, and a Go
method that can return an error or dereference a nil pointer returns an
explicit `AddResult` (`ok` / `err` / `nilPanic`).

String-typed enums (`EventType`, `ContentType`, `EventDeltaType`, `Role`)
are kept as strings, exactly as in the Go source, with the same named
constants; the Go `switch` statements become if-chains over string
equality, preserving case order.
-/

namespace AnthropicGo

/-- Go `EventType` (stream.go): a string. -/
abbrev EventType := String

def EventTypePing : EventType := "ping"

def EventTypeMessageStart : EventType := "message_start"

def EventTypeMessageDelta : EventType := "message_delta"

def EventTypeMessageStop : EventType := "message_stop"

def EventTypeContentBlockStart : EventType := "content_block_start"

def EventTypeContentBlockDelta : EventType := "content_block_delta"

def EventTypeContentBlockStop : EventType := "content_block_stop"

/-- Go `ContentType` (response.go): a string. -/
abbrev ContentType := String

def ContentTypeText : ContentType := "text"

def ContentTypeToolUse : ContentType := "tool_use"

def ContentTypeThinking : ContentType := "thinking"

def ContentTypeRedactedThinking : ContentType := "redacted_thinking"

/-- Go `EventDeltaType` (stream.go): a string. -/
abbrev EventDeltaType := String

def EventDeltaTypeText : EventDeltaType := "text_delta"

def EventDeltaTypeInputJSON : EventDeltaType := "input_json_delta"

def EventDeltaTypeThinking : EventDeltaType := "thinking_delta"

def EventDeltaTypeSignature : EventDeltaType := "signature_delta"

def EventDeltaTypeCitations : EventDeltaType := "citations_delta"

/-- Go `Role`: a string. -/
abbrev Role := String

def User : Role := "user"

def Assistant : Role := "assistant"

def System : Role := "system"

/-- The Go `Content` interface restricted to the concrete structs the
accumulator constructs (`TextContent`, `ToolUseContent`, `ThinkingContent`,
`RedactedThinkingContent`); every other content struct of the library
(image, document, tool-result, ...) is represented by `otherContent`
carrying the string returned by its `Type()` method, which is the only
capability the code under verification uses on those variants.
`ToolUseContent.Input` is `json.RawMessage` (a byte slice) in Go; bytes are
modelled as `String`, with `append` becoming string concatenation. -/
inductive Content where
  | textContent (text : String)
  | toolUseContent (id name : String) (input : String)
  | thinkingContent (thinking signature : String)
  | redactedThinkingContent
  | otherContent (ty : ContentType)
  deriving DecidableEq, Repr

/-- The `Type()` method of each Go content struct. -/
def Content.type : Content → ContentType
  | .textContent _ => ContentTypeText
  | .toolUseContent _ _ _ => ContentTypeToolUse
  | .thinkingContent _ _ => ContentTypeThinking
  | .redactedThinkingContent => ContentTypeRedactedThinking
  | .otherContent ty => ty

/-- Go `Usage` (types.go): four `int` counters. -/
structure Usage where
  inputTokens : Int
  outputTokens : Int
  cacheCreationInputTokens : Int
  cacheReadInputTokens : Int
  deriving DecidableEq, Repr

def usageZero : Usage := ⟨0, 0, 0, 0⟩

/-- Component-wise addition of usage counters, as performed by the
usage-update step of `AddEvent` (stream.go lines 184-191). -/
def usageAdd (u v : Usage) : Usage :=
  ⟨u.inputTokens + v.inputTokens,
   u.outputTokens + v.outputTokens,
   u.cacheCreationInputTokens + v.cacheCreationInputTokens,
   u.cacheReadInputTokens + v.cacheReadInputTokens⟩

/-- Go `Response` (response.go). `Content` is `[]Content`, a slice of
interface values that can hold nil (the accumulator can store a nil block
for an unrecognized discriminant), hence `List (Option Content)`. -/
structure Response where
  id : String
  model : String
  role : Role
  content : List (Option Content)
  stopReason : String
  stopSequence : Option String
  type : String
  usage : Usage
  deriving DecidableEq, Repr

/-- Go `EventContentBlock` (stream.go). -/
structure EventContentBlock where
  type : ContentType
  text : String
  id : String
  name : String
  input : String
  thinking : String
  signature : String
  deriving DecidableEq, Repr

/-- Go `EventDelta` (stream.go). -/
structure EventDelta where
  type : EventDeltaType
  text : String
  index : Int
  stopReason : String
  stopSequence : String
  partialJSON : String
  thinking : String
  signature : String
  deriving DecidableEq, Repr

/-- Go `Event` (stream.go). `Index` is `*int`, `Message`, `ContentBlock`,
`Delta` and `Usage` are pointers, hence `Option`. -/
structure Event where
  type : EventType
  index : Option Int
  message : Option Response
  contentBlock : Option EventContentBlock
  delta : Option EventDelta
  usage : Option Usage
  deriving DecidableEq, Repr

/-- Go `ResponseAccumulator` (stream.go): `response` is a nilable pointer,
`contentBlocks` is `map[int]Content`, modelled as an association list with
insert-or-replace update (values are nilable interface values). -/
structure ResponseAccumulator where
  response : Option Response
  contentBlocks : List (Int × Option Content)
  complete : Bool
  deriving DecidableEq, Repr

/-- Go `NewResponseAccumulator` (stream.go lines 83-87). -/
def NewResponseAccumulator : ResponseAccumulator :=
  { response := none, contentBlocks := [], complete := false }

/-- Go map write `m[k] = v`: replace the binding of `k` in place if present,
otherwise add a new binding. -/
def mapInsert (m : List (Int × Option Content)) (k : Int) (v : Option Content) :
    List (Int × Option Content) :=
  match m with
  | [] => [(k, v)]
  | (k', v') :: rest =>
    if k' = k then (k, v) :: rest else (k', v') :: mapInsert rest k v

/-- Go map read `v, exists := m[k]`. -/
def mapFind (m : List (Int × Option Content)) (k : Int) : Option (Option Content) :=
  match m with
  | [] => none
  | (k', v') :: rest => if k' = k then some v' else mapFind rest k

/-- Go `sort.Ints`: sort a list of integers ascending. -/
def sortInts (l : List Int) : List Int :=
  List.insertionSort (fun a b => a ≤ b) l

/-- Go `finalizeContent` (stream.go lines 195-214): freeze the index→block
map into a content slice ordered by ascending index. -/
def finalizeContent (r : ResponseAccumulator) : ResponseAccumulator :=
  match r.response with
  | none => r
  | some resp =>
    if r.contentBlocks.length = 0 then r
    else
      let indices := sortInts (r.contentBlocks.map Prod.fst)
      let content := indices.map (fun i => (mapFind r.contentBlocks i).getD none)
      { r with response := some { resp with content := content } }

/-- Outcome of the Go method `AddEvent` on a `*ResponseAccumulator`: the
method mutates the receiver and returns an `error`; a nil-pointer
dereference inside it is a runtime panic. -/
inductive AddResult where
  | ok (acc : ResponseAccumulator)
  | err (msg : String) (acc : ResponseAccumulator)
  | nilPanic
  deriving DecidableEq, Repr

def AddResult.isError : AddResult → Bool
  | .err _ _ => true
  | _ => false

/-- The usage-update step at the end of `AddEvent` (stream.go lines
184-191): `if event.Usage != nil { r.response.Usage.X += event.Usage.X }`.
Reading `r.response.Usage` with a nil `r.response` panics. -/
def addEventUsageStep (r : ResponseAccumulator) (event : Event) : AddResult :=
  match event.usage with
  | none => .ok r
  | some u =>
    match r.response with
    | none => .nilPanic
    | some resp => .ok { r with response := some { resp with usage := usageAdd resp.usage u } }

/-- The content block constructed by the `content_block_start` case of
`AddEvent` (stream.go lines 106-124): `var content Content` followed by a
switch on the payload discriminant; an unrecognized discriminant leaves
`content` nil. -/
def blockFromPayload (cb : EventContentBlock) : Option Content :=
  if cb.type = ContentTypeText then some (.textContent cb.text)
  else if cb.type = ContentTypeToolUse then some (.toolUseContent cb.id cb.name "")
  else if cb.type = ContentTypeThinking then some (.thinkingContent cb.thinking cb.signature)
  else if cb.type = ContentTypeRedactedThinking then some .redactedThinkingContent
  else none

/-- Go `AddEvent` (stream.go lines 90-192), transcribed case by case. The
`switch event.Type` becomes an if-chain over the same constants; cases that
`return` in Go skip the trailing usage-update step, all other paths fall
through to it. There is no case for `content_block_stop` or `ping` in the
Go switch, so those events fall directly to the usage step. -/
def AddEvent (r : ResponseAccumulator) (event : Event) : AddResult :=
  if event.type = EventTypeMessageStart then
    match event.message with
    | none => .err "invalid message start event" r
    | some msg => .ok { r with response := some msg }
  else if event.type = EventTypeContentBlockStart then
    match r.response with
    | none => .err "no message start event found" r
    | some _ =>
      match event.contentBlock with
      | none => .err "no content block found in event" r
      | some cb =>
        let content := blockFromPayload cb
        match event.index with
        | some i =>
          addEventUsageStep { r with contentBlocks := mapInsert r.contentBlocks i content } event
        | none =>
          let m := mapInsert r.contentBlocks (r.contentBlocks.length : Int) content
          addEventUsageStep { r with contentBlocks := m } event
  else if event.type = EventTypeContentBlockDelta then
    match r.response, event.delta, event.index with
    | some _, some d, some i =>
      match mapFind r.contentBlocks i with
      | none => .err "content block not found for index" r
      | some content =>
        if d.type = EventDeltaTypeText then
          match content with
          | some (.textContent t) =>
            let m := mapInsert r.contentBlocks i (some (.textContent (t ++ d.text)))
            addEventUsageStep { r with contentBlocks := m } event
          | _ => .err "in-progress block is not a text content" r
        else if d.type = EventDeltaTypeInputJSON then
          match content with
          | some (.toolUseContent id name input) =>
            let m := mapInsert r.contentBlocks i (some (.toolUseContent id name (input ++ d.partialJSON)))
            addEventUsageStep { r with contentBlocks := m } event
          | _ => .err "in-progress block is not a tool use content" r
        else if d.type = EventDeltaTypeThinking ∨ d.type = EventDeltaTypeSignature then
          match content with
          | some (.thinkingContent th sig) =>
            let m := mapInsert r.contentBlocks i (some (.thinkingContent (th ++ d.thinking) (sig ++ d.signature)))
            addEventUsageStep { r with contentBlocks := m } event
          | _ => .err "in-progress block is not a thinking content" r
        else
          addEventUsageStep r event
    | _, _, _ => .err "invalid content block delta event" r
  else if event.type = EventTypeMessageDelta then
    match r.response, event.delta with
    | some resp, some d =>
      let resp := if d.stopReason ≠ "" then { resp with stopReason := d.stopReason } else resp
      let resp :=
        if d.stopSequence ≠ "" then { resp with stopSequence := some d.stopSequence } else resp
      addEventUsageStep { r with response := some resp } event
    | _, _ => .err "invalid message delta event" r
  else if event.type = EventTypeMessageStop then
    addEventUsageStep (finalizeContent { r with complete := true }) event
  else
    addEventUsageStep r event

/-- Feed a list of events to the accumulator, requiring every `AddEvent`
call to succeed (no error return, no panic). -/
def addEventsOk (r : ResponseAccumulator) : List Event → Option ResponseAccumulator
  | [] => some r
  | e :: es =>
    match AddEvent r e with
    | .ok r' => addEventsOk r' es
    | _ => none

/-- `charsLead a b`: does the list `b` start with the list `a`?
(Go `bytes.HasPrefix` / `strings.HasPrefix`, over characters.) -/
def charsLead : List Char → List Char → Bool
  | [], _ => true
  | _ :: _, [] => false
  | a :: as, b :: bs => a == b && charsLead as bs

/-- Go `strings.HasPrefix(s, pre)` / `bytes.HasPrefix`. -/
def goStartsWith (s pre : String) : Bool :=
  charsLead pre.data s.data

/-- `charsContain sub l`: does `l` contain `sub` as a contiguous run?
(Go `strings.Contains`, over characters.) -/
def charsContain (sub : List Char) : List Char → Bool
  | [] => charsLead sub []
  | c :: rest => charsLead sub (c :: rest) || charsContain sub rest

/-- Go `strings.Contains(s, sub)`. -/
def goContains (s sub : String) : Bool :=
  charsContain sub.data s.data

/-- The ASCII white-space predicate of Go `unicode.IsSpace` (the inputs
under consideration are ASCII; the Unicode space classes beyond ASCII are
not modelled). -/
def goIsSpace (c : Char) : Bool :=
  c == ' ' || c == '\t' || c == '\n' || c == '\x0b' || c == '\x0c' || c == '\r'

/-- Go `bytes.TrimSpace`: remove white space from both ends. -/
def goTrimSpace (s : String) : String :=
  ⟨((s.data.dropWhile goIsSpace).reverse.dropWhile goIsSpace).reverse⟩

/-- Drop the first `n` characters (Go slicing `s[n:]`, as performed by
`bytes.TrimPrefix` when the prefix matches). -/
def goDropChars (s : String) (n : Nat) : String :=
  ⟨s.data.drop n⟩

/-- Go `StreamIterator.processEvent` (stream iterator source): applies the
prefill logic to one event. The iterator state is the pair of its mutable
`prefill` and immutable `prefillClosingTag` fields; the function returns
the surfaced event (`none` when the event is swallowed because its
discriminant is the empty string) and the new `prefill` value. -/
def processEvent (prefill prefillClosingTag : String) (event : Event) :
    Option Event × String :=
  if event.type = "" then (none, prefill)
  else if prefill ≠ "" ∧ event.type = EventTypeContentBlockStart then
    match event.contentBlock with
    | some cb =>
      if cb.type = ContentTypeText then
        if prefillClosingTag = "" ∨ goContains cb.text prefillClosingTag = true then
          (some { event with contentBlock := some { cb with text := prefill ++ cb.text } }, "")
        else (some event, prefill)
      else (some event, prefill)
    | none => (some event, prefill)
  else (some event, prefill)

/-- The surfaced-event sequence of `StreamIterator.Next` run to exhaustion
over a list of decoded events: each event passes through `processEvent`,
swallowed events are dropped, and the mutable `prefill` field is threaded
through. Returns the surfaced events and the final `prefill` value. -/
def processAll (prefill prefillClosingTag : String) :
    List Event → List Event × String
  | [] => ([], prefill)
  | e :: es =>
    let step := processEvent prefill prefillClosingTag e
    let rest := processAll step.2 prefillClosingTag es
    (match step.1 with
     | none => rest.1
     | some ev => ev :: rest.1, rest.2)

/-- Go `ServerSentEventsReader.Next`, modelled over the list of lines the
underlying buffered reader will deliver (each without its trailing
newline, which `bytes.TrimSpace` would remove anyway). JSON decoding of a
line into the type parameter `T` is abstracted by the `decode` function
(`json.Unmarshal`). Returns the decoded event if any, the remaining
lines, and the reader's `err` field (`none` = nil error). The SSE
callback is not modelled (claims do not involve it). -/
def sseNextLines {T : Type} (decode : String → Except String T) :
    List String → Option T × List String × Option String
  | [] => (none, [], none)
  | line :: rest =>
    if goTrimSpace line = "" then sseNextLines decode rest
    else
      let l := goTrimSpace (if goStartsWith line "data: " then goDropChars line 6 else line)
      if l = "[DONE]" then (none, rest, none)
      else if !(goStartsWith l "\x7b") then sseNextLines decode rest
      else
        match decode l with
        | .error msg => (none, rest, some msg)
        | .ok v => (some v, rest, none)

/-- Go `Message` (messages source): role and content blocks. The blocks a
caller-built message holds are concrete structs, hence `Content` values. -/
structure Message where
  id : String
  role : Role
  content : List Content
  deriving DecidableEq, Repr

/-- The per-message body of the loop of Go `reorderMessageContent`
(util.go lines 13-32): separate the blocks of an assistant message with at
least two blocks into tool-use and other blocks by a single pass of
appends, and when both groups are non-empty replace the content with the
other blocks followed by the tool-use blocks. -/
def reorderMessage (msg : Message) : Message :=
  if msg.role ≠ Assistant ∨ msg.content.length < 2 then msg
  else
    let split := msg.content.foldl
      (fun (acc : List Content × List Content) block =>
        if block.type = ContentTypeToolUse then (acc.1 ++ [block], acc.2)
        else (acc.1, acc.2 ++ [block]))
      ([], [])
    if 0 < split.1.length ∧ 0 < split.2.length then
      { msg with content := split.2 ++ split.1 }
    else msg

/-- Go `reorderMessageContent` (util.go lines 8-33): the loop over the
message list, each message rewritten in place. -/
def reorderMessageContent (messages : List Message) : List Message :=
  messages.map reorderMessage

/-! Event and payload builders used to state and instantiate the theorems;
unset fields are the Go zero values (nil pointers, empty strings). -/

def baseEvent : Event :=
  { type := "", index := none, message := none, contentBlock := none, delta := none, usage := none }

def emptyCB : EventContentBlock :=
  { type := "", text := "", id := "", name := "", input := "", thinking := "", signature := "" }

def emptyDelta : EventDelta :=
  { type := "", text := "", index := 0, stopReason := "", stopSequence := "",
    partialJSON := "", thinking := "", signature := "" }

def textCB (s : String) : EventContentBlock :=
  { emptyCB with type := ContentTypeText, text := s }

def messageStartEvent (msg : Response) (u : Option Usage) : Event :=
  { baseEvent with type := EventTypeMessageStart, message := some msg, usage := u }

def contentBlockStartEvent (i : Int) (cb : EventContentBlock) : Event :=
  { baseEvent with type := EventTypeContentBlockStart, index := some i, contentBlock := some cb }

def contentBlockDeltaEvent (i : Int) (d : EventDelta) : Event :=
  { baseEvent with type := EventTypeContentBlockDelta, index := some i, delta := some d }

def messageDeltaEvent (d : EventDelta) : Event :=
  { baseEvent with type := EventTypeMessageDelta, delta := some d }

def messageStopEvent : Event :=
  { baseEvent with type := EventTypeMessageStop }

def pingEvent (u : Option Usage) : Event :=
  { baseEvent with type := EventTypePing, usage := u }

def contentBlockStopEvent (u : Option Usage) : Event :=
  { baseEvent with type := EventTypeContentBlockStop, usage := u }

def textDeltaOf (s : String) : EventDelta :=
  { emptyDelta with type := EventDeltaTypeText, text := s }

def inputJSONDeltaOf (s : String) : EventDelta :=
  { emptyDelta with type := EventDeltaTypeInputJSON, partialJSON := s }

def thinkingDeltaOf (s : String) : EventDelta :=
  { emptyDelta with type := EventDeltaTypeThinking, thinking := s }

def signatureDeltaOf (s : String) : EventDelta :=
  { emptyDelta with type := EventDeltaTypeSignature, signature := s }

def citationsDelta : EventDelta :=
  { emptyDelta with type := EventDeltaTypeCitations }

/-- A minimal message snapshot as carried by a `message_start` event. -/
def sampleMessage : Response :=
  { id := "msg_1", model := "m", role := Assistant, content := [], stopReason := "",
    stopSequence := none, type := "message", usage := usageZero }

/-- A started accumulator holding a single text block `"Hello"` at index 0,
the state reached from a fresh accumulator by a `message_start` and one
text `content_block_start`. -/
def helloAcc : ResponseAccumulator :=
  { response := some sampleMessage,
    contentBlocks := [(0, some (.textContent "Hello"))],
    complete := false }

/-- The condition under which `processEvent` injects the pending prefill
into an event: a `content_block_start` for a text block whose current
text already contains the configured closing tag (or no closing tag is
configured). With an empty closing tag this is exactly "the event is a
`content_block_start` for a text block". -/
def triggersInjection (prefillClosingTag : String) (e : Event) : Bool :=
  e.type == EventTypeContentBlockStart &&
    (match e.contentBlock with
     | some cb =>
       cb.type == ContentTypeText && (prefillClosingTag == "" || goContains cb.text prefillClosingTag)
     | none => false)

/-- The usage counters an event carries (zero when the pointer is nil). -/
def eventUsage (e : Event) : Usage :=
  e.usage.getD usageZero

/-- Component-wise sum of the usage counters carried by a list of events. -/
def usageSumOf (es : List Event) : Usage :=
  es.foldr (fun e acc => usageAdd (eventUsage e) acc) usageZero

/-! ## Theorems -/

theorem usageAdd_zero (u : Usage) : usageAdd u usageZero = u := by
  cases u
  simp [usageAdd, usageZero]

theorem usageAdd_assoc (a b c : Usage) :
    usageAdd (usageAdd a b) c = usageAdd a (usageAdd b c) := by
  cases a
  cases b
  cases c
  simp [usageAdd, add_assoc]

/-- `finalizeContent` touches only the response's content, never its
usage counters. -/
theorem finalizeContent_usage (r : ResponseAccumulator) (resp : Response)
    (h : r.response = some resp) :
    ∃ resp', (finalizeContent r).response = some resp' ∧ resp'.usage = resp.usage := by
  simp only [finalizeContent, h]
  by_cases hlen : r.contentBlocks.length = 0
  · rw [if_pos hlen]
    exact ⟨resp, h, rfl⟩
  · rw [if_neg hlen]
    exact ⟨_, rfl, rfl⟩

/-- The usage-update step of `AddEvent`, when it succeeds on a started
accumulator, adds exactly the event's usage counters onto the response's
usage and changes nothing else. -/
theorem addEventUsageStep_ok (r r' : ResponseAccumulator) (resp : Response) (e : Event)
    (hr : r.response = some resp) (h : addEventUsageStep r e = .ok r') :
    r'.response = some { resp with usage := usageAdd resp.usage (eventUsage e) } ∧
      r'.contentBlocks = r.contentBlocks ∧ r'.complete = r.complete := by
  cases hu : e.usage with
  | none =>
    simp only [addEventUsageStep, hu] at h
    cases h
    rw [show eventUsage e = usageZero by simp [eventUsage, hu], usageAdd_zero]
    exact ⟨hr, rfl, rfl⟩
  | some u =>
    simp only [addEventUsageStep, hu, hr] at h
    cases h
    exact ⟨by simp [eventUsage, hu], rfl, rfl⟩

/-- Any successful `AddEvent` call on a started accumulator, for an event
that is not a `message_start`, leaves the response present and adds
exactly the event's usage counters to its usage. -/
theorem addEvent_ok_usage (r r' : ResponseAccumulator) (resp : Response) (e : Event)
    (hne : e.type ≠ EventTypeMessageStart) (hr : r.response = some resp)
    (h : AddEvent r e = .ok r') :
    ∃ resp', r'.response = some resp' ∧
      resp'.usage = usageAdd resp.usage (eventUsage e) := by
  have key : ∀ (r₂ : ResponseAccumulator) (resp₂ : Response), r₂.response = some resp₂ →
      resp₂.usage = resp.usage → addEventUsageStep r₂ e = .ok r' →
      ∃ resp', r'.response = some resp' ∧ resp'.usage = usageAdd resp.usage (eventUsage e) := by
    intro r₂ resp₂ h₂ hu h'
    obtain ⟨hresp, -, -⟩ := addEventUsageStep_ok r₂ r' resp₂ e h₂ h'
    exact ⟨_, hresp, by simp [hu]⟩
  rw [AddEvent, if_neg hne] at h
  by_cases h1 : e.type = EventTypeContentBlockStart
  · rw [if_pos h1] at h
    simp only [hr] at h
    cases hcb : e.contentBlock with
    | none =>
      simp only [hcb] at h
      exact absurd h (by simp)
    | some cb =>
      simp only [hcb] at h
      cases hidx : e.index with
      | none =>
        simp only [hidx] at h
        exact key _ resp rfl rfl h
      | some i =>
        simp only [hidx] at h
        exact key _ resp rfl rfl h
  · rw [if_neg h1] at h
    by_cases h2 : e.type = EventTypeContentBlockDelta
    · rw [if_pos h2] at h
      cases hd : e.delta with
      | none =>
        simp only [hr, hd] at h
        exact absurd h (by simp)
      | some d =>
        cases hidx : e.index with
        | none =>
          simp only [hr, hd, hidx] at h
          exact absurd h (by simp)
        | some i =>
          simp only [hr, hd, hidx] at h
          cases hfind : mapFind r.contentBlocks i with
          | none =>
            simp only [hfind] at h
            exact absurd h (by simp)
          | some content =>
            simp only [hfind] at h
            by_cases hd1 : d.type = EventDeltaTypeText
            · rw [if_pos hd1] at h
              rcases content with _ | c
              · exact absurd h (by simp)
              rcases c with t | ⟨id, nm, inp⟩ | ⟨th, sg⟩ | _ | ty <;>
                first
                | exact key _ resp rfl rfl h
                | exact absurd h (by simp)
            · rw [if_neg hd1] at h
              by_cases hd2 : d.type = EventDeltaTypeInputJSON
              · rw [if_pos hd2] at h
                rcases content with _ | c
                · exact absurd h (by simp)
                rcases c with t | ⟨id, nm, inp⟩ | ⟨th, sg⟩ | _ | ty <;>
                  first
                  | exact key _ resp rfl rfl h
                  | exact absurd h (by simp)
              · rw [if_neg hd2] at h
                by_cases hd3 : d.type = EventDeltaTypeThinking ∨ d.type = EventDeltaTypeSignature
                · rw [if_pos hd3] at h
                  rcases content with _ | c
                  · exact absurd h (by simp)
                  rcases c with t | ⟨id, nm, inp⟩ | ⟨th, sg⟩ | _ | ty <;>
                    first
                    | exact key _ resp rfl rfl h
                    | exact absurd h (by simp)
                · rw [if_neg hd3] at h
                  exact key _ resp hr rfl h
    · rw [if_neg h2] at h
      by_cases h3 : e.type = EventTypeMessageDelta
      · rw [if_pos h3] at h
        cases hd : e.delta with
        | none =>
          simp only [hr, hd] at h
          exact absurd h (by simp)
        | some d =>
          simp only [hr, hd] at h
          exact key _ _ rfl (by split_ifs <;> rfl) h
      · rw [if_neg h3] at h
        by_cases h4 : e.type = EventTypeMessageStop
        · rw [if_pos h4] at h
          obtain ⟨resp₃, h₃, hu₃⟩ :=
            finalizeContent_usage { r with complete := true } resp hr
          exact key _ resp₃ h₃ hu₃ h
        · rw [if_neg h4] at h
          exact key r resp hr rfl h

/-- Running any list of non-`message_start` events through a started
accumulator, with every call succeeding, adds exactly the component-wise
sum of the events' usage counters onto the response's usage. -/
theorem addEventsOk_usage (es : List Event) :
    ∀ (r r' : ResponseAccumulator) (resp : Response), r.response = some resp →
    (∀ e ∈ es, e.type ≠ EventTypeMessageStart) →
    addEventsOk r es = some r' →
    ∃ resp', r'.response = some resp' ∧
      resp'.usage = usageAdd resp.usage (usageSumOf es) := by
  induction es with
  | nil =>
    intro r r' resp hr _ hrun
    simp only [addEventsOk, Option.some.injEq] at hrun
    subst hrun
    exact ⟨resp, hr, (usageAdd_zero resp.usage).symm⟩
  | cons e es ih =>
    intro r r' resp hr hne hrun
    simp only [addEventsOk] at hrun
    cases hstep : AddEvent r e with
    | ok r₁ =>
      rw [hstep] at hrun
      obtain ⟨resp₁, h₁, hu₁⟩ :=
        addEvent_ok_usage r r₁ resp e (hne e (List.mem_cons_self e es)) hr hstep
      obtain ⟨resp', h', hu'⟩ :=
        ih r₁ r' resp₁ h₁ (fun e' he' => hne e' (List.mem_cons_of_mem e he')) hrun
      refine ⟨resp', h', ?_⟩
      rw [hu', hu₁, usageAdd_assoc]
      rfl
    | err m racc =>
      rw [hstep] at hrun
      exact absurd hrun (by simp)
    | nilPanic =>
      rw [hstep] at hrun
      exact absurd hrun (by simp)

/-- C3 counterexample: a `message_start` event carrying both a message
snapshot (zero usage) and a top-level usage payload `(1,1,1,1)`, followed
by a `ping` carrying usage `(2,2,2,2)`: both events are successfully
processed and both carry non-null usage, yet the final usage is
`(2,2,2,2)` — not the component-wise sum `(3,3,3,3)` — because the
`message_start` handler returns before the usage-update step. -/
theorem usage_sum_skips_messageStart :
    (messageStartEvent sampleMessage (some ⟨1, 1, 1, 1⟩)).usage = some ⟨1, 1, 1, 1⟩ ∧
    (pingEvent (some ⟨2, 2, 2, 2⟩)).usage = some ⟨2, 2, 2, 2⟩ ∧
    addEventsOk NewResponseAccumulator
        [messageStartEvent sampleMessage (some ⟨1, 1, 1, 1⟩), pingEvent (some ⟨2, 2, 2, 2⟩)] =
      some { response := some { sampleMessage with usage := ⟨2, 2, 2, 2⟩ },
             contentBlocks := [], complete := false } ∧
    usageAdd ⟨1, 1, 1, 1⟩ ⟨2, 2, 2, 2⟩ = ⟨3, 3, 3, 3⟩ ∧
    (⟨2, 2, 2, 2⟩ : Usage) ≠ ⟨3, 3, 3, 3⟩ := by
  exact ⟨rfl, rfl, rfl, rfl, by decide⟩

/-- C3 (amended): after a `message_start` adopting the snapshot `msg`,
for every successfully processed list of events containing no further
`message_start`, the final usage equals the snapshot's usage plus the
component-wise sum of the usage payloads of those events, independent of
which event kinds carried them; the `message_start` event's own top-level
usage payload `u₀` is skipped, because its handler returns before the
usage-update step. -/
theorem usage_additivity_after_messageStart (msg : Response) (u₀ : Option Usage)
    (es : List Event) (r' : ResponseAccumulator)
    (hne : ∀ e ∈ es, e.type ≠ EventTypeMessageStart)
    (hrun : addEventsOk NewResponseAccumulator (messageStartEvent msg u₀ :: es) = some r') :
    ∃ resp', r'.response = some resp' ∧
      resp'.usage = usageAdd msg.usage (usageSumOf es) := by
  have hstart : AddEvent NewResponseAccumulator (messageStartEvent msg u₀) =
      .ok { response := some msg, contentBlocks := [], complete := false } := rfl
  simp only [addEventsOk, hstart] at hrun
  exact addEventsOk_usage es _ r' msg rfl hne hrun

/-- Inserting a key not yet bound appends the binding at the end. -/
theorem mapInsert_fresh (m : List (Int × Option Content)) (k : Int) (v : Option Content)
    (h : k ∉ m.map Prod.fst) : mapInsert m k v = m ++ [(k, v)] := by
  induction m with
  | nil => rfl
  | cons p rest ih =>
    obtain ⟨k', v'⟩ := p
    simp only [List.map_cons, List.mem_cons] at h
    push_neg at h
    rw [mapInsert, if_neg (fun hh => h.1 hh.symm), ih h.2]
    rfl

/-- Inserting at a key already bound leaves the key list untouched. -/
theorem mapInsert_present_keys (m : List (Int × Option Content)) (k : Int) (v : Option Content)
    (h : k ∈ m.map Prod.fst) : (mapInsert m k v).map Prod.fst = m.map Prod.fst := by
  induction m with
  | nil => simp at h
  | cons p rest ih =>
    obtain ⟨k', v'⟩ := p
    by_cases hk : k' = k
    · rw [mapInsert, if_pos hk]
      simp [hk]
    · rw [mapInsert, if_neg hk]
      simp only [List.map_cons, List.mem_cons] at h ⊢
      rcases h with h | h
      · exact absurd h.symm hk
      · rw [ih h]

/-- A successful map lookup means the key is bound. -/
theorem mapFind_some_mem (m : List (Int × Option Content)) (k : Int) (c : Option Content)
    (h : mapFind m k = some c) : k ∈ m.map Prod.fst := by
  induction m with
  | nil => simp [mapFind] at h
  | cons p rest ih =>
    obtain ⟨k', v'⟩ := p
    by_cases hk : k' = k
    · simp [hk]
    · rw [mapFind, if_neg hk] at h
      simp [ih h]

/-- Folding `content_block_start` insertions with pairwise-distinct fresh
indices appends the new bindings in arrival order. -/
theorem foldl_mapInsert_fresh (starts : List (Int × EventContentBlock)) :
    ∀ (m : List (Int × Option Content)), (starts.map Prod.fst).Nodup →
    (∀ k ∈ starts.map Prod.fst, k ∉ m.map Prod.fst) →
    starts.foldl (fun acc p => mapInsert acc p.1 (blockFromPayload p.2)) m =
      m ++ starts.map (fun p => (p.1, blockFromPayload p.2)) := by
  induction starts with
  | nil => intro m _ _; simp
  | cons p rest ih =>
    intro m hnd hdisj
    simp only [List.foldl_cons]
    rw [mapInsert_fresh m p.1 (blockFromPayload p.2) (hdisj p.1 (by simp))]
    rw [ih (m ++ [(p.1, blockFromPayload p.2)]) (by simpa using hnd.of_cons) ?_]
    · simp
    · intro k hk
      simp only [List.map_append, List.mem_append, List.map_cons]
      rintro (hm | hp)
      · exact hdisj k (by simp [hk]) hm
      · simp only [List.map_cons, List.nodup_cons] at hnd
        simp at hp
        exact hnd.1 (by simpa [hp] using hk)

/-- Feeding a list of indexed `content_block_start` events to a started
accumulator succeeds and performs exactly the corresponding map
insertions, touching nothing else. -/
theorem addEventsOk_starts (starts : List (Int × EventContentBlock)) :
    ∀ (r : ResponseAccumulator) (resp : Response), r.response = some resp →
    addEventsOk r (starts.map fun p => contentBlockStartEvent p.1 p.2) =
      some { r with contentBlocks :=
        starts.foldl (fun acc p => mapInsert acc p.1 (blockFromPayload p.2)) r.contentBlocks } := by
  induction starts with
  | nil =>
    intro r resp hr
    rfl
  | cons p rest ih =>
    intro r resp hr
    have hstep : AddEvent r (contentBlockStartEvent p.1 p.2) =
        .ok { r with contentBlocks := mapInsert r.contentBlocks p.1 (blockFromPayload p.2) } := by
      simp [AddEvent, contentBlockStartEvent, baseEvent, hr, addEventUsageStep,
        EventTypeContentBlockStart, EventTypeMessageStart]
    simp only [List.map_cons, addEventsOk, hstep]
    rw [ih { r with contentBlocks := mapInsert r.contentBlocks p.1 (blockFromPayload p.2) }
      resp hr]
    rfl

/-- A successful `content_block_delta` never changes the key set of the
block map (it only rewrites the value at an already-bound index), never
clears the response, and never flips the completion flag. -/
theorem addEvent_delta_preserves (r r' : ResponseAccumulator) (e : Event)
    (ht : e.type = EventTypeContentBlockDelta) (h : AddEvent r e = .ok r') :
    r'.contentBlocks.map Prod.fst = r.contentBlocks.map Prod.fst ∧
      r'.response.isSome = r.response.isSome ∧ r'.complete = r.complete := by
  rw [AddEvent] at h
  rw [if_neg (by simp [ht, EventTypeContentBlockDelta, EventTypeMessageStart]),
    if_neg (by simp [ht, EventTypeContentBlockDelta, EventTypeContentBlockStart]),
    if_pos ht] at h
  cases hr : r.response with
  | none =>
    simp only [hr] at h
    exact absurd h (by simp)
  | some resp =>
    cases hd : e.delta with
    | none =>
      simp only [hr, hd] at h
      exact absurd h (by simp)
    | some d =>
      cases hidx : e.index with
      | none =>
        simp only [hr, hd, hidx] at h
        exact absurd h (by simp)
      | some i =>
        simp only [hr, hd, hidx] at h
        cases hfind : mapFind r.contentBlocks i with
        | none =>
          simp only [hfind] at h
          exact absurd h (by simp)
        | some content =>
          simp only [hfind] at h
          have hmem : i ∈ r.contentBlocks.map Prod.fst := mapFind_some_mem _ _ _ hfind
          have key : ∀ (r₂ : ResponseAccumulator) (v : Option Content),
              addEventUsageStep r₂ e = .ok r' →
              r₂.response = some resp → r₂.contentBlocks = mapInsert r.contentBlocks i v →
              r₂.complete = r.complete →
              r'.contentBlocks.map Prod.fst = r.contentBlocks.map Prod.fst ∧
                r'.response.isSome = (some resp).isSome ∧ r'.complete = r.complete := by
            intro r₂ v h' h₂ hcb₂ hcmp₂
            obtain ⟨hresp, hcb, hcmp⟩ := addEventUsageStep_ok _ r' resp e h₂ h'
            refine ⟨?_, ?_, hcmp.trans hcmp₂⟩
            · rw [hcb, hcb₂]
              exact mapInsert_present_keys _ _ _ hmem
            · simp [hresp]
          have keyPlain : addEventUsageStep r e = .ok r' →
              r'.contentBlocks.map Prod.fst = r.contentBlocks.map Prod.fst ∧
                r'.response.isSome = (some resp).isSome ∧ r'.complete = r.complete := by
            intro h'
            obtain ⟨hresp, hcb, hcmp⟩ := addEventUsageStep_ok _ r' resp e hr h'
            exact ⟨by rw [hcb], by simp [hresp], hcmp⟩
          by_cases hd1 : d.type = EventDeltaTypeText
          · rw [if_pos hd1] at h
            rcases content with _ | c
            · exact absurd h (by simp)
            rcases c with t | ⟨id, nm, inp⟩ | ⟨th, sg⟩ | _ | ty
            · exact key _ _ h rfl rfl rfl
            · exact absurd h (by simp)
            · exact absurd h (by simp)
            · exact absurd h (by simp)
            · exact absurd h (by simp)
          · rw [if_neg hd1] at h
            by_cases hd2 : d.type = EventDeltaTypeInputJSON
            · rw [if_pos hd2] at h
              rcases content with _ | c
              · exact absurd h (by simp)
              rcases c with t | ⟨id, nm, inp⟩ | ⟨th, sg⟩ | _ | ty <;>
                first
                | exact key _ _ h rfl rfl rfl
                | exact absurd h (by simp)
            · rw [if_neg hd2] at h
              by_cases hd3 : d.type = EventDeltaTypeThinking ∨ d.type = EventDeltaTypeSignature
              · rw [if_pos hd3] at h
                rcases content with _ | c
                · exact absurd h (by simp)
                rcases c with t | ⟨id, nm, inp⟩ | ⟨th, sg⟩ | _ | ty <;>
                  first
                  | exact key _ _ h rfl rfl rfl
                  | exact absurd h (by simp)
              · rw [if_neg hd3] at h
                exact keyPlain h

/-- A successfully processed run of `content_block_delta` events preserves
the key set of the block map, the presence of the response, and the
completion flag. -/
theorem addEventsOk_deltas (deltas : List Event) :
    ∀ (r r' : ResponseAccumulator),
    (∀ e ∈ deltas, e.type = EventTypeContentBlockDelta) →
    addEventsOk r deltas = some r' →
    r'.contentBlocks.map Prod.fst = r.contentBlocks.map Prod.fst ∧
      r'.response.isSome = r.response.isSome ∧ r'.complete = r.complete := by
  induction deltas with
  | nil =>
    intro r r' _ hrun
    simp only [addEventsOk, Option.some.injEq] at hrun
    subst hrun
    exact ⟨rfl, rfl, rfl⟩
  | cons e es ih =>
    intro r r' hty hrun
    simp only [addEventsOk] at hrun
    cases hstep : AddEvent r e with
    | ok r₁ =>
      rw [hstep] at hrun
      obtain ⟨h₁, h₂, h₃⟩ :=
        addEvent_delta_preserves r r₁ e (hty e (List.mem_cons_self e es)) hstep
      obtain ⟨g₁, g₂, g₃⟩ := ih r₁ r' (fun e' he' => hty e' (List.mem_cons_of_mem e he')) hrun
      exact ⟨g₁.trans h₁, g₂.trans h₂, g₃.trans h₃⟩
    | err m racc =>
      rw [hstep] at hrun
      exact absurd hrun (by simp)
    | nilPanic =>
      rw [hstep] at hrun
      exact absurd hrun (by simp)

/-- `message_stop` (with no usage payload) succeeds and performs exactly
the content freeze. -/
theorem addEvent_stop (r : ResponseAccumulator) :
    AddEvent r messageStopEvent = .ok (finalizeContent { r with complete := true }) := by
  simp [AddEvent, messageStopEvent, baseEvent, addEventUsageStep,
    EventTypeMessageStop, EventTypeMessageStart, EventTypeContentBlockStart,
    EventTypeContentBlockDelta, EventTypeMessageDelta]

/-- The content freeze on a started accumulator with a non-empty block
map: the response's content becomes, for each bound index in ascending
order, the block stored at that index. -/
theorem finalizeContent_content (r : ResponseAccumulator) (resp : Response)
    (hr : r.response = some resp) (hne : r.contentBlocks ≠ []) :
    finalizeContent r = { r with response := some { resp with content := (sortInts (r.contentBlocks.map Prod.fst)).map (fun i => (mapFind r.contentBlocks i).getD none) } } := by
  simp only [finalizeContent, hr]
  rw [if_neg (by simpa using hne)]

/-- Sorting ascending is invariant under permutation of the input. -/
theorem sortInts_eq_of_perm (l₁ l₂ : List Int) (h : l₁.Perm l₂) :
    sortInts l₁ = sortInts l₂ := by
  haveI : IsAntisymm Int (fun a b : Int => a ≤ b) := ⟨fun a b ha hb => le_antisymm ha hb⟩
  haveI : IsTotal Int (fun a b : Int => a ≤ b) := ⟨fun a b => le_total a b⟩
  haveI : IsTrans Int (fun a b : Int => a ≤ b) := ⟨fun a b c ha hb => le_trans ha hb⟩
  have s₁ := List.sorted_insertionSort (fun a b : Int => a ≤ b) l₁
  have s₂ := List.sorted_insertionSort (fun a b : Int => a ≤ b) l₂
  have hp : (sortInts l₁).Perm (sortInts l₂) :=
    ((List.perm_insertionSort _ l₁).trans h).trans (List.perm_insertionSort _ l₂).symm
  exact List.eq_of_perm_of_sorted hp s₁ s₂

/-- Concatenated event runs compose. -/
theorem addEventsOk_append (l₁ l₂ : List Event) :
    ∀ r, addEventsOk r (l₁ ++ l₂) =
      (addEventsOk r l₁).bind (fun r₁ => addEventsOk r₁ l₂) := by
  induction l₁ with
  | nil => intro r; simp [addEventsOk]
  | cons e es ih =>
    intro r
    simp only [List.cons_append, addEventsOk]
    cases AddEvent r e <;> simp [ih]

/-- C1: starting from a fresh accumulator, after a `message_start`, any
arrival order `starts'` of a set `starts` of index-tagged
`content_block_start` events with pairwise-distinct explicit indices,
then any successfully processed `content_block_delta` events, then
`message_stop`: the final response content is, for each started index in
ascending numeric order, the accumulated block stored at that index —
the bound keys are exactly the started indices, index gaps are skipped,
and the length equals the number of started blocks (no padding). -/
theorem content_ordered_by_index (msg : Response)
    (starts starts' : List (Int × EventContentBlock)) (deltas : List Event)
    (r' : ResponseAccumulator)
    (hperm : starts'.Perm starts) (hnodup : (starts.map Prod.fst).Nodup)
    (hne : starts ≠ [])
    (hdeltas : ∀ e ∈ deltas, e.type = EventTypeContentBlockDelta)
    (hrun : addEventsOk NewResponseAccumulator
      (messageStartEvent msg none ::
        ((starts'.map fun p => contentBlockStartEvent p.1 p.2) ++ deltas ++
          [messageStopEvent])) = some r') :
    ∃ resp', r'.response = some resp' ∧
      r'.contentBlocks.map Prod.fst = starts'.map Prod.fst ∧
      resp'.content = (sortInts (starts.map Prod.fst)).map
        (fun i => (mapFind r'.contentBlocks i).getD none) ∧
      resp'.content.length = starts.length := by
  have h₀ : AddEvent NewResponseAccumulator (messageStartEvent msg none) =
      .ok { response := some msg, contentBlocks := [], complete := false } := rfl
  simp only [addEventsOk, h₀] at hrun
  rw [addEventsOk_append, addEventsOk_append] at hrun
  rw [addEventsOk_starts starts' _ msg rfl] at hrun
  have hnodup' : (starts'.map Prod.fst).Nodup := (hperm.map Prod.fst).nodup_iff.mpr hnodup
  rw [foldl_mapInsert_fresh starts' [] hnodup' (by simp)] at hrun
  simp only [List.nil_append, Option.some_bind] at hrun
  cases hdel : addEventsOk
      { response := some msg,
        contentBlocks := starts'.map fun p => (p.1, blockFromPayload p.2),
        complete := false } deltas with
  | none =>
    rw [hdel] at hrun
    exact absurd hrun (by simp)
  | some r₂ =>
    rw [hdel] at hrun
    simp only [Option.some_bind] at hrun
    obtain ⟨hkeys, hsome, hcmp⟩ := addEventsOk_deltas deltas _ r₂ hdeltas hdel
    have hkeys₂ : r₂.contentBlocks.map Prod.fst = starts'.map Prod.fst := by
      rw [hkeys, List.map_map]
      rfl
    obtain ⟨resp₂, hresp₂⟩ := Option.isSome_iff_exists.mp (by simpa using hsome)
    have hstartsne : starts' ≠ [] := by
      intro hnil
      rw [hnil] at hperm
      exact hne hperm.symm.eq_nil
    have hmapne : r₂.contentBlocks ≠ [] := by
      intro hnil
      rw [hnil] at hkeys₂
      exact hstartsne (List.map_eq_nil_iff.mp hkeys₂.symm)
    simp only [addEventsOk, addEvent_stop] at hrun
    rw [finalizeContent_content { r₂ with complete := true } resp₂ hresp₂ hmapne] at hrun
    obtain rfl := Option.some.inj hrun
    refine ⟨_, rfl, hkeys₂, ?_, ?_⟩
    · show (sortInts (r₂.contentBlocks.map Prod.fst)).map
          (fun i => (mapFind r₂.contentBlocks i).getD none) =
        (sortInts (starts.map Prod.fst)).map
          (fun i => (mapFind r₂.contentBlocks i).getD none)
      rw [hkeys₂, sortInts_eq_of_perm _ _ (hperm.map Prod.fst)]
    · show ((sortInts (r₂.contentBlocks.map Prod.fst)).map
          (fun i => (mapFind r₂.contentBlocks i).getD none)).length = starts.length
      rw [List.length_map, sortInts, (List.perm_insertionSort _ _).length_eq, hkeys₂,
        List.length_map]
      exact hperm.length_eq

/-- C1 witness: block index 1 (`"B"`) arrives before block index 0
(`"A"`); after `message_stop` the content is `[A, B]`, in ascending index
order, of length 2. -/
theorem content_ordered_by_index_witness :
    ∃ resp',
      (⟨some { sampleMessage with
            content := [some (.textContent "A"), some (.textContent "B")] },
          [(1, some (.textContent "B")), (0, some (.textContent "A"))], true⟩ :
        ResponseAccumulator).response = some resp' ∧
      (⟨some { sampleMessage with
            content := [some (.textContent "A"), some (.textContent "B")] },
          [(1, some (.textContent "B")), (0, some (.textContent "A"))], true⟩ :
        ResponseAccumulator).contentBlocks.map Prod.fst =
        [((1 : Int), textCB "B"), (0, textCB "A")].map Prod.fst ∧
      resp'.content = (sortInts ([((0 : Int), textCB "A"), (1, textCB "B")].map Prod.fst)).map
        (fun i => (mapFind
          (⟨some { sampleMessage with
              content := [some (.textContent "A"), some (.textContent "B")] },
            [(1, some (.textContent "B")), (0, some (.textContent "A"))], true⟩ :
            ResponseAccumulator).contentBlocks i).getD none) ∧
      resp'.content.length = [((0 : Int), textCB "A"), (1, textCB "B")].length :=
  content_ordered_by_index sampleMessage
    [(0, textCB "A"), (1, textCB "B")] [(1, textCB "B"), (0, textCB "A")] []
    ⟨some { sampleMessage with
        content := [some (.textContent "A"), some (.textContent "B")] },
      [(1, some (.textContent "B")), (0, some (.textContent "A"))], true⟩
    (List.Perm.swap (0, textCB "A") (1, textCB "B") [])
    (by decide) (by decide) (by simp) rfl

/-- C3 witness: snapshot with zero usage, then a `ping` with `(2,2,2,2)`
and a `content_block_stop` with `(5,0,0,0)`: final usage is the sum
`(7,2,2,2)` of the two non-`message_start` events. -/
theorem usage_additivity_after_messageStart_witness :
    ∃ resp', (⟨some { sampleMessage with usage := ⟨7, 2, 2, 2⟩ }, [], false⟩ :
        ResponseAccumulator).response = some resp' ∧
      resp'.usage = usageAdd sampleMessage.usage
        (usageSumOf [pingEvent (some ⟨2, 2, 2, 2⟩), contentBlockStopEvent (some ⟨5, 0, 0, 0⟩)]) := by
  exact usage_additivity_after_messageStart sampleMessage (some ⟨1, 1, 1, 1⟩)
    [pingEvent (some ⟨2, 2, 2, 2⟩), contentBlockStopEvent (some ⟨5, 0, 0, 0⟩)]
    ⟨some { sampleMessage with usage := ⟨7, 2, 2, 2⟩ }, [], false⟩
    (by decide) rfl

/-- A non-injecting event passes through `processEvent` unmodified (or is
swallowed when its discriminant is empty) and leaves the pending prefill
set. -/
theorem processEvent_no_injection (p tag : String) (e : Event)
    (htrig : triggersInjection tag e = false) :
    processEvent p tag e = ((if e.type = "" then none else some e), p) := by
  by_cases h0 : e.type = ""
  · simp [processEvent, h0]
  · rw [if_neg h0]
    by_cases hstart : e.type = EventTypeContentBlockStart
    · cases hcb : e.contentBlock with
      | none => simp [processEvent, h0, hcb]
      | some cb =>
        by_cases hty : cb.type = ContentTypeText
        · have hor : ¬ (tag = "" ∨ goContains cb.text tag = true) := by
            intro hor
            rcases hor with h | h <;>
              simp [triggersInjection, hcb, hstart, hty, h] at htrig
          simp [processEvent, h0, hstart, hcb, hty, hor, EventTypeContentBlockStart]
        · simp [processEvent, h0, hstart, hcb, hty, EventTypeContentBlockStart]
    · simp [processEvent, h0, hstart]

/-- With no pending prefill, the iterator surfaces every event whose
discriminant is non-empty, unmodified, and swallows the rest. -/
theorem processAll_no_pending (tag : String) (es : List Event) :
    processAll "" tag es = (es.filter fun e => e.type != "", "") := by
  induction es with
  | nil => rfl
  | cons e es ih =>
    by_cases h : e.type = "" <;>
      simp [processAll, processEvent, h, ih, List.filter_cons]

/-- A run of non-injecting events is surfaced unmodified (empty
discriminants swallowed) and the pending prefill survives it. -/
theorem processAll_skip (p tag : String) (pre rest : List Event)
    (hpre : ∀ e ∈ pre, triggersInjection tag e = false) :
    processAll p tag (pre ++ rest) =
      ((pre.filter fun e => e.type != "") ++ (processAll p tag rest).1,
        (processAll p tag rest).2) := by
  induction pre with
  | nil => simp
  | cons e es ih =>
    have hstep := processEvent_no_injection p tag e (hpre e (List.mem_cons_self e es))
    have ihs := ih (fun e' he' => hpre e' (List.mem_cons_of_mem e he'))
    by_cases h : e.type = "" <;>
      simp [processAll, hstep, h, ihs, List.filter_cons]

/-- An injecting event gets the prefill prepended to its text and clears
the pending prefill. -/
theorem processEvent_inject (p tag : String) (hp : p ≠ "") (e : Event)
    (cb : EventContentBlock) (he : e.type = EventTypeContentBlockStart)
    (hcb : e.contentBlock = some cb) (hty : cb.type = ContentTypeText)
    (htag : tag = "" ∨ goContains cb.text tag = true) :
    processEvent p tag e =
      (some { e with contentBlock := some { cb with text := p ++ cb.text } }, "") := by
  simp [processEvent, he, hcb, hty, hp, htag, EventTypeContentBlockStart]

/-- C6: with a non-empty pending prefill and no closing tag configured,
the first `content_block_start` event whose block is a text block — after
any run of events none of which is a text-block `content_block_start` —
is the only surfaced event modified: it receives the prefill prepended to
its text, every earlier and later event is surfaced unmodified (events
with an empty discriminant are swallowed, not modified), and the pending
prefill is cleared for the rest of the stream. -/
theorem prefill_injected_exactly_once (p : String) (hp : p ≠ "")
    (pre post : List Event) (e : Event) (cb : EventContentBlock)
    (hpre : ∀ e' ∈ pre, triggersInjection "" e' = false)
    (he : e.type = EventTypeContentBlockStart) (hcb : e.contentBlock = some cb)
    (hty : cb.type = ContentTypeText) :
    processAll p "" (pre ++ e :: post) =
      ((pre.filter fun e' => e'.type != "") ++
        { e with contentBlock := some { cb with text := p ++ cb.text } } ::
          (post.filter fun e' => e'.type != ""), "") := by
  rw [processAll_skip p "" pre (e :: post) hpre]
  have hstep := processEvent_inject p "" hp e cb he hcb hty (Or.inl rfl)
  simp [processAll, hstep, processAll_no_pending]

/-- C6 witness: prefill `"PREFIX: "`, no closing tag; a `ping`, then a
text block `"abc"`, then a second text block `"xyz"`: only the first text
block is prefixed, the second is surfaced untouched. -/
theorem prefill_injected_exactly_once_witness :
    processAll "PREFIX: " ""
        [pingEvent none, contentBlockStartEvent 0 (textCB "abc"),
          contentBlockStartEvent 1 (textCB "xyz")] =
      ([pingEvent none, contentBlockStartEvent 0 (textCB "PREFIX: abc"),
          contentBlockStartEvent 1 (textCB "xyz")], "") := by
  have h := prefill_injected_exactly_once "PREFIX: " (by decide)
    [pingEvent none] [contentBlockStartEvent 1 (textCB "xyz")]
    (contentBlockStartEvent 0 (textCB "abc")) (textCB "abc")
    (by intro e' he'; simp at he'; subst he'; rfl) rfl rfl rfl
  simpa [pingEvent, baseEvent, contentBlockStartEvent, textCB, emptyCB,
    EventTypePing, EventTypeContentBlockStart] using h

/-- C7: with a non-empty pending prefill and a non-empty closing tag, a
text-block `content_block_start` whose text does not contain the tag is
surfaced unmodified with the prefill left pending (first conjunct), and
over a whole stream the injection lands exactly on the first fragment
that does contain the tag, later events being surfaced unmodified
(second conjunct) — injection never happens before the tag appears in the
current fragment. -/
theorem prefill_deferred_until_closing_tag (p tag : String) (hp : p ≠ "")
    (htagne : tag ≠ "")
    (pre post : List Event) (e : Event) (cb : EventContentBlock)
    (hpre : ∀ e' ∈ pre, triggersInjection tag e' = false)
    (he : e.type = EventTypeContentBlockStart) (hcb : e.contentBlock = some cb)
    (hty : cb.type = ContentTypeText) (hcont : goContains cb.text tag = true) :
    (∀ e' cb', e'.type = EventTypeContentBlockStart → e'.contentBlock = some cb' →
      cb'.type = ContentTypeText → goContains cb'.text tag = false →
      processEvent p tag e' = (some e', p)) ∧
    processAll p tag (pre ++ e :: post) =
      ((pre.filter fun e' => e'.type != "") ++
        { e with contentBlock := some { cb with text := p ++ cb.text } } ::
          (post.filter fun e' => e'.type != ""), "") := by
  constructor
  · intro e' cb' he' hcb' hty' hcont'
    have : ¬ (tag = "" ∨ goContains cb'.text tag = true) := by
      intro h
      rcases h with h | h
      · exact htagne h
      · simp [h] at hcont'
    simp [processEvent, he', hcb', hty', hp, this, EventTypeContentBlockStart]
  · rw [processAll_skip p tag pre (e :: post) hpre]
    have hstep := processEvent_inject p tag hp e cb he hcb hty (Or.inr hcont)
    simp [processAll, hstep, processAll_no_pending]

/-- C7 witness: prefill `"P"`, closing tag `"</r>"`; the first text block
`"abc"` (no tag) is surfaced untouched with the prefill still pending,
and the later text block `"x</r>y"` receives the injection. -/
theorem prefill_deferred_until_closing_tag_witness :
    processEvent "P" "</r>" (contentBlockStartEvent 0 (textCB "abc")) =
      (some (contentBlockStartEvent 0 (textCB "abc")), "P") ∧
    processAll "P" "</r>"
        [contentBlockStartEvent 0 (textCB "abc"),
          contentBlockStartEvent 1 (textCB "x</r>y")] =
      ([contentBlockStartEvent 0 (textCB "abc"),
          contentBlockStartEvent 1 (textCB "Px</r>y")], "") := by
  have h := prefill_deferred_until_closing_tag "P" "</r>" (by decide) (by decide)
    [contentBlockStartEvent 0 (textCB "abc")] []
    (contentBlockStartEvent 1 (textCB "x</r>y")) (textCB "x</r>y")
    (by intro e' he'; simp at he'; subst he'; rfl) rfl rfl rfl (by rfl)
  refine ⟨h.1 (contentBlockStartEvent 0 (textCB "abc")) (textCB "abc") rfl rfl rfl (by rfl), ?_⟩
  have h2 := h.2
  simpa [contentBlockStartEvent, baseEvent, textCB, emptyCB,
    EventTypeContentBlockStart] using h2

/-- C8: in the started state, a `message_delta` event updates the
response's `stop_reason` only when the delta's stop-reason string is
non-empty and `stop_sequence` only when the delta's stop-sequence string
is non-empty; empty strings leave the previously stored values unchanged
(empty is treated as absent, never as clearing the field). -/
theorem messageDelta_updates_only_nonempty (r : ResponseAccumulator) (resp : Response)
    (d : EventDelta) (h : r.response = some resp) :
    AddEvent r (messageDeltaEvent d) =
      .ok { r with response := some { resp with
              stopReason := if d.stopReason ≠ "" then d.stopReason else resp.stopReason,
              stopSequence :=
                if d.stopSequence ≠ "" then some d.stopSequence else resp.stopSequence } } := by
  by_cases hR : d.stopReason = "" <;> by_cases hS : d.stopSequence = "" <;>
    simp [AddEvent, messageDeltaEvent, baseEvent, addEventUsageStep, h, hR, hS,
      EventTypeMessageDelta, EventTypeMessageStart, EventTypeContentBlockStart,
      EventTypeContentBlockDelta, EventTypeMessageStop]

/-- C8 witness: a `message_delta` whose stop-reason and stop-sequence are
both empty leaves a previously recorded stop-reason `"end_turn"` and
stop-sequence `"SEQ"` untouched. -/
theorem messageDelta_updates_only_nonempty_witness :
    AddEvent
      { response := some { sampleMessage with stopReason := "end_turn", stopSequence := some "SEQ" },
        contentBlocks := [], complete := false }
      (messageDeltaEvent emptyDelta) =
      .ok { response := some { sampleMessage with stopReason := "end_turn", stopSequence := some "SEQ" },
            contentBlocks := [], complete := false } := by
  simpa using messageDelta_updates_only_nonempty
    { response := some { sampleMessage with stopReason := "end_turn", stopSequence := some "SEQ" },
      contentBlocks := [], complete := false }
    { sampleMessage with stopReason := "end_turn", stopSequence := some "SEQ" }
    emptyDelta rfl

/-- C10: on a freshly created accumulator (no `message_start` processed,
`response` still nil), `AddEvent` on a `ping`, `content_block_stop` or
`message_stop` event that carries a non-null usage payload reaches the
usage-update step with a nil response and dereferences the nil pointer (a
runtime panic), instead of returning an error. -/
theorem addEvent_empty_usage_nil_panic (e : Event) (u : Usage) (hu : e.usage = some u)
    (ht : e.type = EventTypePing ∨ e.type = EventTypeContentBlockStop ∨
      e.type = EventTypeMessageStop) :
    AddEvent NewResponseAccumulator e = .nilPanic := by
  rcases ht with ht | ht | ht <;>
    simp [AddEvent, NewResponseAccumulator, finalizeContent, addEventUsageStep, hu, ht,
      EventTypePing, EventTypeContentBlockStop, EventTypeMessageStop, EventTypeMessageStart,
      EventTypeContentBlockStart, EventTypeContentBlockDelta, EventTypeMessageDelta]

/-- C10 witness: a `ping` event carrying usage `(1,0,0,0)` panics on the
fresh accumulator. -/
theorem addEvent_empty_usage_nil_panic_witness :
    AddEvent NewResponseAccumulator (pingEvent (some ⟨1, 0, 0, 0⟩)) = .nilPanic :=
  addEvent_empty_usage_nil_panic (pingEvent (some ⟨1, 0, 0, 0⟩)) ⟨1, 0, 0, 0⟩ rfl (Or.inl rfl)

/-- C4 counterexample: the claim says every `content_block_start`,
`content_block_delta`, `content_block_stop` or `message_delta` event is
rejected with a non-nil error on an accumulator in the empty state, but a
`content_block_stop` event (with no usage payload) has no case in the
`AddEvent` switch and is silently accepted: the call returns a nil error
and leaves the accumulator unchanged. -/
theorem addEvent_empty_state_contentBlockStop_ok :
    AddEvent NewResponseAccumulator (contentBlockStopEvent none) = .ok NewResponseAccumulator ∧
      (AddEvent NewResponseAccumulator (contentBlockStopEvent none)).isError = false := by
  constructor <;> rfl

/-- C4 (amended): on an accumulator in the empty state, `AddEvent` on any
event of type `content_block_start`, `content_block_delta` or
`message_delta` returns an explicit non-nil error; `content_block_stop`
is excluded, having no case in the switch (it is silently accepted when
it carries no usage payload, and panics when it does). -/
theorem addEvent_empty_state_errors (e : Event)
    (ht : e.type = EventTypeContentBlockStart ∨ e.type = EventTypeContentBlockDelta ∨
      e.type = EventTypeMessageDelta) :
    (AddEvent NewResponseAccumulator e).isError = true := by
  obtain ⟨ty, idx, msg, cb, d, us⟩ := e
  rcases ht with ht | ht | ht <;> (simp only at ht; subst ht) <;> rfl

/-- C4 witness: a `content_block_delta` event arriving in the empty state
is rejected with an error. -/
theorem addEvent_empty_state_errors_witness :
    (AddEvent NewResponseAccumulator (contentBlockDeltaEvent 0 (textDeltaOf "x"))).isError = true :=
  addEvent_empty_state_errors (contentBlockDeltaEvent 0 (textDeltaOf "x")) (Or.inr (Or.inl rfl))

/-- C2 counterexample: the claim says every delta whose discriminant does
not match the target block's concrete variant makes `AddEvent` return an
error, but a `citations_delta` aimed at a text block has no case in the
delta switch and is silently accepted: the call (on the reachable state
`helloAcc`) returns a nil error and modifies nothing. -/
theorem contentBlockDelta_citations_silently_ok :
    addEventsOk NewResponseAccumulator
        [messageStartEvent sampleMessage none, contentBlockStartEvent 0 (textCB "Hello")] =
      some helloAcc ∧
    AddEvent helloAcc (contentBlockDeltaEvent 0 citationsDelta) = .ok helloAcc ∧
    (AddEvent helloAcc (contentBlockDeltaEvent 0 citationsDelta)).isError = false := by
  exact ⟨rfl, rfl, rfl⟩

/-- C2 (amended): a text delta aimed at a started text block appends the
delta's text to the block's existing text; a delta of one of the handled
discriminants (`text_delta`, `input_json_delta`, `thinking_delta`,
`signature_delta`) aimed at a block of a different concrete variant makes
`AddEvent` return an error without modifying anything; a delta with an
unhandled discriminant (such as `citations_delta`) is silently accepted
without modifying the block. -/
theorem contentBlockDelta_typed_append (r : ResponseAccumulator) (resp : Response) (i : Int)
    (h : r.response = some resp) :
    (∀ t s, mapFind r.contentBlocks i = some (some (.textContent t)) →
      AddEvent r (contentBlockDeltaEvent i (textDeltaOf s)) =
        .ok { r with contentBlocks :=
                mapInsert r.contentBlocks i (some (.textContent (t ++ s))) } ∧
      AddEvent r (contentBlockDeltaEvent i (inputJSONDeltaOf s)) =
        .err "in-progress block is not a tool use content" r ∧
      AddEvent r (contentBlockDeltaEvent i (thinkingDeltaOf s)) =
        .err "in-progress block is not a thinking content" r ∧
      AddEvent r (contentBlockDeltaEvent i (signatureDeltaOf s)) =
        .err "in-progress block is not a thinking content" r ∧
      AddEvent r (contentBlockDeltaEvent i citationsDelta) = .ok r) ∧
    (∀ id nm inp s, mapFind r.contentBlocks i = some (some (.toolUseContent id nm inp)) →
      AddEvent r (contentBlockDeltaEvent i (textDeltaOf s)) =
        .err "in-progress block is not a text content" r) := by
  constructor
  · intro t s hfind
    refine ⟨?_, ?_, ?_, ?_, ?_⟩ <;>
      simp [AddEvent, contentBlockDeltaEvent, baseEvent, textDeltaOf, inputJSONDeltaOf,
        thinkingDeltaOf, signatureDeltaOf,
        citationsDelta, emptyDelta, addEventUsageStep, h, hfind,
        EventTypeContentBlockDelta, EventTypeMessageStart, EventTypeContentBlockStart,
        EventTypeMessageDelta, EventTypeMessageStop,
        EventDeltaTypeText, EventDeltaTypeInputJSON, EventDeltaTypeThinking,
        EventDeltaTypeSignature, EventDeltaTypeCitations]
  · intro id nm inp s hfind
    simp [AddEvent, contentBlockDeltaEvent, baseEvent, textDeltaOf, emptyDelta,
      addEventUsageStep, h, hfind,
      EventTypeContentBlockDelta, EventTypeMessageStart, EventTypeContentBlockStart,
      EventTypeMessageDelta, EventTypeMessageStop, EventDeltaTypeText]

/-- C2 witness: on `helloAcc` (text block `"Hello"` at index 0), a text
delta `" world"` yields `"Hello world"`, while an input-JSON delta and a
thinking delta aimed at the same text block are each rejected with an
error, leaving the accumulator untouched. -/
theorem contentBlockDelta_typed_append_witness :
    AddEvent helloAcc (contentBlockDeltaEvent 0 (textDeltaOf " world")) =
      .ok { helloAcc with contentBlocks := [(0, some (.textContent "Hello world"))] } ∧
    AddEvent helloAcc (contentBlockDeltaEvent 0 (inputJSONDeltaOf "\x7b")) =
      .err "in-progress block is not a tool use content" helloAcc ∧
    AddEvent helloAcc (contentBlockDeltaEvent 0 (thinkingDeltaOf "th")) =
      .err "in-progress block is not a thinking content" helloAcc := by
  have h1 := ((contentBlockDelta_typed_append helloAcc sampleMessage 0 rfl).1 "Hello" " world" rfl).1
  have h2 := ((contentBlockDelta_typed_append helloAcc sampleMessage 0 rfl).1 "Hello" "\x7b" rfl).2.1
  have h3 := ((contentBlockDelta_typed_append helloAcc sampleMessage 0 rfl).1 "Hello" "th" rfl).2.2.1
  exact ⟨by simpa [helloAcc, mapInsert] using h1, h2, h3⟩

/-- C9: the pre-submission transform rewrites exactly the assistant
messages having at least two content blocks and a mix of tool-use and
non-tool-use blocks, moving all non-tool-use blocks (in their original
relative order, as a filter) before all tool-use blocks (also in original
relative order); every other message is returned unchanged. -/
theorem reorderMessageContent_characterization (messages : List Message) :
    reorderMessageContent messages = messages.map (fun m =>
      if m.role = Assistant ∧ 2 ≤ m.content.length ∧
          (m.content.any fun b => b.type == ContentTypeToolUse) = true ∧
          (m.content.any fun b => !(b.type == ContentTypeToolUse)) = true then
        { m with content :=
            (m.content.filter fun b => !(b.type == ContentTypeToolUse)) ++
              (m.content.filter fun b => b.type == ContentTypeToolUse) }
      else m) := by
  have hfilter : ∀ (l : List Content) (p : Content → Bool),
      (0 < (l.filter p).length ↔ l.any p = true) := by
    intro l p
    simp [List.length_pos, List.filter_eq_nil_iff, List.any_eq_true]
  have split : ∀ (l : List Content) (a b : List Content),
      l.foldl (fun (acc : List Content × List Content) block =>
          if block.type = ContentTypeToolUse then (acc.1 ++ [block], acc.2)
          else (acc.1, acc.2 ++ [block])) (a, b) =
        (a ++ l.filter (fun c => c.type == ContentTypeToolUse),
         b ++ l.filter (fun c => !(c.type == ContentTypeToolUse))) := by
    intro l
    induction l with
    | nil => intro a b; simp
    | cons x xs ih =>
      intro a b
      by_cases hx : x.type = ContentTypeToolUse <;>
        simp [hx, ih, List.filter_cons, List.append_assoc]
  unfold reorderMessageContent
  refine List.map_congr_left ?_
  intro m _
  simp only [reorderMessage]
  by_cases hrole : m.role = Assistant
  · by_cases hlen : m.content.length < 2
    · have h2 : ¬ (2 ≤ m.content.length) := by omega
      rw [if_pos (Or.inr hlen), if_neg (fun hc => h2 hc.2.1)]
    · have hguard : ¬ (m.role ≠ Assistant ∨ m.content.length < 2) := by
        push_neg
        exact ⟨hrole, by omega⟩
      have h2 : 2 ≤ m.content.length := by omega
      rw [if_neg hguard, split]
      dsimp only
      simp only [List.nil_append]
      by_cases htool : (m.content.any fun b => b.type == ContentTypeToolUse) = true
      · by_cases hother : (m.content.any fun b => !(b.type == ContentTypeToolUse)) = true
        · rw [if_pos ⟨(hfilter _ _).mpr htool, (hfilter _ _).mpr hother⟩,
            if_pos ⟨hrole, h2, htool, hother⟩]
        · rw [if_neg (fun hc => hother ((hfilter _ _).mp hc.2)),
            if_neg (fun hc => hother hc.2.2.2)]
      · rw [if_neg (fun hc => htool ((hfilter _ _).mp hc.1)),
          if_neg (fun hc => htool hc.2.2.1)]
  · rw [if_pos (Or.inl hrole), if_neg (fun hc => hrole hc.1)]

/-- C5: the SSE reader's `Next`, over the remaining input lines: a blank
line is skipped; a non-blank line that (after stripping an optional
`data: ` prefix and surrounding whitespace) is not `[DONE]` and does not
start with `\x7b` is skipped; a literal `[DONE]` ends iteration with a nil
error; end of the underlying stream ends iteration with a nil error; a
brace-prefixed line on which JSON decoding fails ends iteration (`Next`
yields no value) with the decode error stored in the reader's `err`
field. -/
theorem sseNext_line_protocol {T : Type} (decode : String → Except String T) :
    (sseNextLines decode ([] : List String) = (none, [], none)) ∧
    (∀ line rest, goTrimSpace line = "" →
      sseNextLines decode (line :: rest) = sseNextLines decode rest) ∧
    (∀ line rest, goTrimSpace line ≠ "" →
      goTrimSpace (if goStartsWith line "data: " then goDropChars line 6 else line) = "[DONE]" →
      sseNextLines decode (line :: rest) = (none, rest, none)) ∧
    (∀ line rest, goTrimSpace line ≠ "" →
      goTrimSpace (if goStartsWith line "data: " then goDropChars line 6 else line) ≠ "[DONE]" →
      goStartsWith
        (goTrimSpace (if goStartsWith line "data: " then goDropChars line 6 else line)) "\x7b"
        = false →
      sseNextLines decode (line :: rest) = sseNextLines decode rest) ∧
    (∀ line rest msg, goTrimSpace line ≠ "" →
      goTrimSpace (if goStartsWith line "data: " then goDropChars line 6 else line) ≠ "[DONE]" →
      goStartsWith
        (goTrimSpace (if goStartsWith line "data: " then goDropChars line 6 else line)) "\x7b"
        = true →
      decode (goTrimSpace (if goStartsWith line "data: " then goDropChars line 6 else line)) =
        .error msg →
      sseNextLines decode (line :: rest) = (none, rest, some msg)) := by
  refine ⟨rfl, ?_, ?_, ?_, ?_⟩
  · intro line rest hblank
    simp [sseNextLines, hblank]
  · intro line rest hblank hdone
    simp [sseNextLines, hblank, hdone]
  · intro line rest hblank hdone hbrace
    simp [sseNextLines, hblank, hdone, hbrace]
  · intro line rest msg hblank hdone hbrace hdec
    simp [sseNextLines, hblank, hdone, hbrace, hdec]

/-- C5 witness: with a decoder that always fails, a `data: [DONE]` line
ends iteration with a nil error, and a brace-prefixed line that fails to
decode ends iteration with the error `"bad json"` stored. -/
theorem sseNext_line_protocol_witness :
    sseNextLines (fun _ => (Except.error "bad json" : Except String Nat)) ["data: [DONE]", "x"] =
      (none, ["x"], none) ∧
    sseNextLines (fun _ => (Except.error "bad json" : Except String Nat)) ["data: \x7bbroken"] =
      (none, [], some "bad json") := by
  constructor
  · exact (sseNext_line_protocol (fun _ => (Except.error "bad json" : Except String Nat))).2.2.1
      "data: [DONE]" ["x"] (by decide) (by decide)
  · exact (sseNext_line_protocol (fun _ => (Except.error "bad json" : Except String Nat))).2.2.2.2
      "data: \x7bbroken" [] "bad json" (by decide) (by decide) (by decide) rfl

end AnthropicGo
